import Mathlib

set_option maxRecDepth 4000

/-! Shallow embedding of the rekor-monitor-collector mirroring core
    (cmd/mirroring collector): checkpoint reading, quorum tallying,
    checkpoint selection, and accepted-log retention, translated from
    the Go source. -/

/-- Outcome of a Go code path that may panic (out-of-range slice index)
    or call log.Fatalf (process exit), in addition to succeeding. -/
inductive CycleOutcome (α : Type) where
  | panic : CycleOutcome α
  | fatal : CycleOutcome α
  | ok : α → CycleOutcome α
  deriving Repr, DecidableEq

/-! Models of the Go standard-library string and number routines the
    collector calls, written structurally over the character list. -/

/-- strings.Split(s, "\\n") over the characters: split on every leftmost,
    non-overlapping occurrence of the two-character backslash-n sequence. -/
def splitBackslashN : List Char → List (List Char)
  | [] => [[]]
  | '\\' :: 'n' :: rest => [] :: splitBackslashN rest
  | c :: rest =>
    match splitBackslashN rest with
    | [] => [[c]]
    | l :: ls => (c :: l) :: ls

/-- strings.Split(s, ":") over the characters. -/
def splitColon : List Char → List (List Char)
  | [] => [[]]
  | ':' :: rest => [] :: splitColon rest
  | c :: rest =>
    match splitColon rest with
    | [] => [[c]]
    | l :: ls => (c :: l) :: ls

/-- strings.TrimSpace: drop leading and trailing whitespace. -/
def trimChars (cs : List Char) : List Char :=
  ((cs.dropWhile Char.isWhitespace).reverse.dropWhile Char.isWhitespace).reverse

def goTrimSpace (s : String) : String := ⟨trimChars s.data⟩

def digitsVal (cs : List Char) : Nat :=
  cs.foldl (fun a c => 10 * a + (c.toNat - 48)) 0

def parseDigits (cs : List Char) : Option Nat :=
  if cs ≠ [] ∧ cs.all Char.isDigit then some (digitsVal cs) else none

def int64Max : Int := 9223372036854775807

def int64Min : Int := -9223372036854775808

/-- Model of strconv.ParseInt(s, 10, 64) (and of strconv.Atoi on a 64-bit
    platform): optional sign, then one or more decimal digits, within the
    int64 range; anything else is a parse error (none). -/
def goParseInt (s : String) : Option Int :=
  match s.data with
  | '+' :: rest => (parseDigits rest).bind fun n =>
      if (n : Int) ≤ int64Max then some (n : Int) else none
  | '-' :: rest => (parseDigits rest).bind fun n =>
      if int64Min ≤ -(n : Int) then some (-(n : Int)) else none
  | cs => (parseDigits cs).bind fun n =>
      if (n : Int) ≤ int64Max then some (n : Int) else none

/-- fields := strings.Split(chpt, "\\n"): the checkpoint line is split on
    the literal two-character backslash-n sequence, not on a newline. -/
def splitFields (chpt : String) : List String :=
  (splitBackslashN chpt.data).map fun cs => ⟨cs⟩

/-- Indexing a Go slice: out of range panics. -/
def sliceIndex (l : List String) (i : Nat) : CycleOutcome String :=
  if h : i < l.length then .ok (l.get ⟨i, h⟩) else .panic

/-- treeSize, err := strconv.Atoi(fields[1]); a parse error is fatal
    (log.Fatalf), a missing field is a panic. -/
def treeSizeOf (chpt : String) : CycleOutcome Int :=
  match sliceIndex (splitFields chpt) 1 with
  | .panic => .panic
  | .fatal => .fatal
  | .ok f =>
    match goParseInt f with
    | some n => .ok n
    | none => .fatal

/-- strconv.ParseInt(strings.TrimSpace(strings.Split(fields[3], ":")[1]), 10, 64);
    a parse error is merely logged and the checkpoint skipped (ok none),
    while a missing fourth field or a colon-free fourth field is a panic. -/
def timestampOf (chpt : String) : CycleOutcome (Option Int) :=
  match sliceIndex (splitFields chpt) 3 with
  | .panic => .panic
  | .fatal => .fatal
  | .ok f =>
    match sliceIndex ((splitColon f.data).map fun cs => (⟨cs⟩ : String)) 1 with
    | .panic => .panic
    | .fatal => .fatal
    | .ok t => .ok (goParseInt (goTrimSpace t))

/-- math.Round: round half away from zero. -/
def goRound (q : ℚ) : Int := if 0 ≤ q then ⌊q + 1/2⌋ else ⌈q - 1/2⌉

/-- i := int(math.Round(0.75 * float64(len(monitors)))); the float64
    arithmetic is exact at these magnitudes, so it is modelled over ℚ. -/
def quorumThreshold (numMonitors : Nat) : Nat :=
  (goRound ((0.75 : ℚ) * numMonitors)).toNat

/-- A monitor log file as seen through os.Open and bufio.Scanner: either
    the open fails, or the scanner delivers a list of lines followed by a
    possible scan error. -/
inductive FileRead where
  | openError : FileRead
  | scanned : List String → Bool → FileRead
  deriving Repr, DecidableEq

/-- The scanner loop of readLatestCheckpoints: append each line, and once
    more than two are held, keep only the last two. -/
def scanLoop (acc : List String) : List String → List String
  | [] => acc
  | l :: ls =>
    let acc' := acc ++ [l]
    scanLoop (if 2 < acc'.length then acc'.drop (acc'.length - 2) else acc') ls

/-- readLatestCheckpoints reads the latest two checkpoints from the given
    file, returning an error if the open fails or the scanner errors. -/
def readLatestCheckpoints (f : FileRead) : Except Unit (List String) :=
  match f with
  | .openError => .error ()
  | .scanned lines scanErr =>
    let checkpoints := scanLoop [] lines
    if scanErr then .error () else .ok checkpoints

/-- deleteOldCheckpoints, modelled on the file's line list: if at most 20
    lines are present nothing happens, otherwise the file is rewritten
    with exactly its last 20 lines. -/
def deleteOldCheckpoints (lines : List String) : List String :=
  if lines.length ≤ 20 then lines else lines.drop (lines.length - 20)

def foldCO {σ α : Type} (f : σ → α → CycleOutcome σ) : σ → List α → CycleOutcome σ
  | st, [] => .ok st
  | st, a :: as =>
    match f st a with
    | .panic => .panic
    | .fatal => .fatal
    | .ok st' => foldCO f st' as

/-- counts[strconv.Itoa(treeSize)]++; the map is keyed by
    strconv.Itoa(treeSize), modelled by the integer itself since Itoa is
    injective and every key written or read goes through it. -/
def tallyChpt (counts : Int → Nat) (chpt : String) : CycleOutcome (Int → Nat) :=
  match treeSizeOf chpt with
  | .panic => .panic
  | .fatal => .fatal
  | .ok n => .ok (fun m => if m = n then counts m + 1 else counts m)

/-- The first pass of main's loop body: tally every checkpoint line of
    every monitor history. -/
def runTally (chptss : List (List String)) : CycleOutcome (Int → Nat) :=
  foldCO (fun counts chpts => foldCO tallyChpt counts chpts) (fun _ => 0) chptss

/-- The mutable locals of the selection scan: maxTreeSize, largestTimestamp
    and latest_chpt. -/
structure SelState where
  maxTreeSize : Int
  largestTimestamp : Int
  latest_chpt : String
  deriving Repr, DecidableEq

def initSelState : SelState := ⟨0, 0, ""⟩

/-- One iteration of the selection scan, in the source's order: parse the
    tree size (fatal on error), test the quorum-and-running-max guard,
    update maxTreeSize, parse the timestamp (skip the checkpoint on
    error), then test the same-size and newest-timestamp condition. -/
def selStep (counts : Int → Nat) (i : Nat) (st : SelState) (chpt : String) :
    CycleOutcome SelState :=
  match treeSizeOf chpt with
  | .panic => .panic
  | .fatal => .fatal
  | .ok treeSize =>
    if i ≤ counts treeSize ∧ st.maxTreeSize ≤ treeSize then
      let st1 : SelState := { st with maxTreeSize := treeSize }
      match timestampOf chpt with
      | .panic => .panic
      | .fatal => .fatal
      | .ok none => .ok st1
      | .ok (some timestamp) =>
        if treeSize = st1.maxTreeSize ∧ st1.largestTimestamp < timestamp then
          .ok ⟨st1.maxTreeSize, timestamp, chpt⟩
        else .ok st1
    else .ok st

/-- The second pass of main's loop body: scan all histories in monitor
    order, then within-monitor order. -/
def runSel (counts : Int → Nat) (i : Nat) (chptss : List (List String)) :
    CycleOutcome SelState :=
  foldCO (fun st chpts => foldCO (selStep counts i) st chpts) initSelState chptss

/-- Tally pass followed by selection pass at a given threshold. -/
def runQuorum (i : Nat) (chptss : List (List String)) : CycleOutcome SelState :=
  match runTally chptss with
  | .panic => .panic
  | .fatal => .fatal
  | .ok counts => runSel counts i chptss

/-- One cycle's pure quorum evaluation. The threshold is computed from the
    number of histories, which in main equals the number of discovered
    monitors (one history per monitor). -/
def evalCycle (chptss : List (List String)) : CycleOutcome SelState :=
  runQuorum (quorumThreshold chptss.length) chptss

/-! The monitor-list JSON file and its reader. -/

/-- One element of the monitors array of monitor_list.json. -/
structure MonitorEntry where
  Description : String
  Logfile : String
  deriving Repr, DecidableEq

/-- Struct representing the monitor_list JSON data. -/
structure monitorList where
  Monitors : List MonitorEntry
  deriving Repr, DecidableEq

/-- Result of ioutil.ReadFile followed by json.Unmarshal on the
    monitor-list file: the read can fail, the unmarshalling can fail, or a
    monitorList value is produced. -/
inductive MonitorListRead where
  | readError : MonitorListRead
  | unmarshalError : MonitorListRead
  | parsed : monitorList → MonitorListRead
  deriving Repr, DecidableEq

/-- initMonitors: read the JSON file, unmarshal it, and collect the
    Logfile value of each entry in order. -/
def initMonitors (f : MonitorListRead) : Except Unit (List String) :=
  match f with
  | .readError => .error ()
  | .unmarshalError => .error ()
  | .parsed list => .ok (list.Monitors.map MonitorEntry.Logfile)

/-! One whole iteration of main's loop over an explicit filesystem
    environment. -/

/-- What one cycle can observe of the world: the glob result for
    logInfo*.txt, each file's content, the monitor-list file's content and
    the accepted log's current lines. -/
structure CycleEnv where
  globResult : Except Unit (List String)
  fileOf : String → FileRead
  monitorListFile : MonitorListRead
  acceptedLog : List String

/-- The read loop of main: readLatestCheckpoints on every discovered
    monitor, any error being fatal. -/
def readAllMonitors (fileOf : String → FileRead) : List String → Except Unit (List (List String))
  | [] => .ok []
  | m :: ms =>
    match readLatestCheckpoints (fileOf m) with
    | .error e => .error e
    | .ok chpts =>
      match readAllMonitors fileOf ms with
      | .error e => .error e
      | .ok rest => .ok (chpts :: rest)

/-- One iteration of main's loop: glob for logInfo*.txt, read every
    discovered monitor's latest checkpoints, evaluate the quorum, append
    the selected checkpoint (or the empty line) to the accepted log and
    truncate it to 20 lines. The monitor-list file sits in the environment
    but main's loop never consults it. -/
def runCycle (env : CycleEnv) : CycleOutcome (List String) :=
  match env.globResult with
  | .error _ => .fatal
  | .ok monitors =>
    match readAllMonitors env.fileOf monitors with
    | .error _ => .fatal
    | .ok checkpoints =>
      match runQuorum (quorumThreshold monitors.length) checkpoints with
      | .panic => .panic
      | .fatal => .fatal
      | .ok st => .ok (deleteOldCheckpoints (env.acceptedLog ++ [st.latest_chpt]))

/-! The interval flag. -/

/-- State of the flag package for the single flag main registers. -/
structure FlagState where
  intervalNs : Nat
  deriving Repr, DecidableEq

/-- flag.Duration: register the flag and set its current value to the
    given default. -/
def flagDuration (defaultNs : Nat) : FlagState := ⟨defaultNs⟩

/-- flag.Parse: apply the command-line value, when one was supplied, to
    the registered flag. -/
def flagParse (supplied : Option Nat) (st : FlagState) : FlagState :=
  match supplied with
  | some d => ⟨d⟩
  | none => st

def oneMinuteNs : Nat := 60 * 1000000000

/-- The value main's time.Sleep dereferences each cycle: main calls
    flag.Duration("interval", time.Minute, ...) but never flag.Parse, so
    the registered default is never overwritten by the command line. -/
def mainSleepInterval (_supplied : Option Nat) : Nat :=
  (flagDuration oneMinuteNs).intervalNs

/-! Definitions supporting the remaining results: the selection step with
    the tautological guard removed, a parse-success predicate, and the
    concrete inputs used to exercise the code. -/

/-- The selection step with the same-size equality guard deleted, the
    comparison point for the redundancy claim. -/
def selStepNoGuard (counts : Int → Nat) (i : Nat) (st : SelState) (chpt : String) :
    CycleOutcome SelState :=
  match treeSizeOf chpt with
  | .panic => .panic
  | .fatal => .fatal
  | .ok treeSize =>
    if i ≤ counts treeSize ∧ st.maxTreeSize ≤ treeSize then
      let st1 : SelState := { st with maxTreeSize := treeSize }
      match timestampOf chpt with
      | .panic => .panic
      | .fatal => .fatal
      | .ok none => .ok st1
      | .ok (some timestamp) =>
        if st1.largestTimestamp < timestamp then
          .ok ⟨st1.maxTreeSize, timestamp, chpt⟩
        else .ok st1
    else .ok st

def runSelNoGuard (counts : Int → Nat) (i : Nat) (chptss : List (List String)) :
    CycleOutcome SelState :=
  foldCO (fun st chpts => foldCO (selStepNoGuard counts i) st chpts) initSelState chptss

def runQuorumNoGuard (i : Nat) (chptss : List (List String)) : CycleOutcome SelState :=
  match runTally chptss with
  | .panic => .panic
  | .fatal => .fatal
  | .ok counts => runSelNoGuard counts i chptss

def evalCycleNoGuard (chptss : List (List String)) : CycleOutcome SelState :=
  runQuorumNoGuard (quorumThreshold chptss.length) chptss

/-- Whether the tree-size field of a checkpoint line is present and
    parses. -/
def sizeParses (chpt : String) : Bool :=
  match treeSizeOf chpt with
  | .ok _ => true
  | _ => false

/-- Two monitors, each with two retained checkpoints; sizes 5 and 7 both
    occur twice, so both meet the threshold 2 of a 2-monitor population,
    and the size-5 lines carry the newer timestamps. -/
def c1ex : List (List String) :=
  [["O\\n5\\nH\\ntimestamp: 100", "O\\n5\\nH\\ntimestamp: 101"],
   ["O\\n7\\nH\\ntimestamp: 50", "O\\n7\\nH\\ntimestamp: 60"]]

/-- One monitor whose two retained checkpoints both report size 5. -/
def c4ex : List (List String) :=
  [["O\\n5\\nH\\ntimestamp: 1", "O\\n5\\nH\\ntimestamp: 2"]]

/-- A checkpoint whose timestamp field does not parse as an integer. -/
def c6chpt : String := "O\\n5\\nH\\ntimestamp: x"

def c6counts : Int → Nat := fun v => if v = 5 then 1 else 0

/-- A checkpoint record for the monitor the JSON list names. -/
def c9chpt : String := "O\\n9\\nH\\ntimestamp: 9"

def c9list : monitorList := ⟨[⟨"monitor 1", "logInfo9.txt"⟩]⟩

/-- The glob finds no monitor file, while the monitor-list JSON file names
    one whose log file exists and holds a checkpoint. -/
def c9env : CycleEnv :=
  { globResult := .ok []
    fileOf := fun _ => .scanned [c9chpt] false
    monitorListFile := .parsed c9list
    acceptedLog := [] }

/-- The same filesystem with the monitor-list file unreadable. -/
def c9envAlt : CycleEnv := { c9env with monitorListFile := .readError }

/-- The same filesystem with the listed log file actually discovered by
    the glob. -/
def c9envGlobbed : CycleEnv := { c9env with globResult := .ok ["logInfo9.txt"] }

/-! Helper lemmas shared by several results. -/

/-- The float rounding of the threshold has an exact integer closed form:
    round-half-away-from-zero of 3n/4 is (3n+2)/4 in natural division. -/
theorem quorumThreshold_eq (n : ℕ) : quorumThreshold n = (3 * n + 2) / 4 := by
  have h4 : (0 : ℚ) < 4 := by norm_num
  have hk1 : 4 * ((3 * n + 2) / 4) ≤ 3 * n + 2 := by omega
  have hk2 : 3 * n + 2 < 4 * ((3 * n + 2) / 4) + 4 := by omega
  have h075 : (0.75 : ℚ) = 3 / 4 := by norm_num
  have hval : (0.75 : ℚ) * n + 1 / 2 = ((3 * n + 2 : ℕ) : ℚ) / 4 := by
    rw [h075]
    push_cast
    ring
  have hpos : (0 : ℚ) ≤ (0.75 : ℚ) * n := by
    rw [h075]
    positivity
  set k : ℕ := (3 * n + 2) / 4 with hkdef
  have hfloor : ⌊(0.75 : ℚ) * n + 1 / 2⌋ = ((k : ℕ) : ℤ) := by
    rw [Int.floor_eq_iff]
    constructor
    · rw [hval, le_div_iff₀ h4]
      have hc : ((4 * k : ℕ) : ℚ) ≤ ((3 * n + 2 : ℕ) : ℚ) := by exact_mod_cast hk1
      push_cast at hc ⊢
      linarith
    · rw [hval, div_lt_iff₀ h4]
      have hc : ((3 * n + 2 : ℕ) : ℚ) < ((4 * k + 4 : ℕ) : ℚ) := by exact_mod_cast hk2
      push_cast at hc ⊢
      linarith
  unfold quorumThreshold goRound
  rw [if_pos hpos, hfloor]
  omega

/-- evalCycle with the threshold in its integer closed form, so concrete
    runs can be evaluated by the kernel. -/
theorem evalCycle_threshold (chptss : List (List String)) :
    evalCycle chptss = runQuorum ((3 * chptss.length + 2) / 4) chptss := by
  unfold evalCycle
  rw [quorumThreshold_eq]

/-- C2: the quorum threshold is round(0.75 × number of monitors), halves
    away from zero — equivalently (3n+2)/4 in integer division — giving
    threshold 3 for 4 monitors and 2 for 3 monitors. -/
theorem quorumThreshold_round_spec :
    (∀ n : ℕ, quorumThreshold n = (3 * n + 2) / 4) ∧
    quorumThreshold 4 = 3 ∧ quorumThreshold 3 = 2 := by
  refine ⟨quorumThreshold_eq, ?_, ?_⟩ <;> rw [quorumThreshold_eq]

/-- C3: appending a line to the accepted log and running
    deleteOldCheckpoints leaves at most 20 lines; when the appended file
    exceeds 20 lines it is rewritten to exactly its last 20 lines in
    order, and a 25-line log receiving a 26th line keeps exactly the last
    20 of the 26. -/
theorem acceptedLog_retention (log : List String) (c : String) :
    (deleteOldCheckpoints (log ++ [c])).length ≤ 20 ∧
    (20 < (log ++ [c]).length →
      deleteOldCheckpoints (log ++ [c]) = (log ++ [c]).drop ((log ++ [c]).length - 20)) ∧
    (log.length = 25 → deleteOldCheckpoints (log ++ [c]) = (log ++ [c]).drop 6) := by
  refine ⟨?_, ?_, ?_⟩
  · unfold deleteOldCheckpoints
    split
    · omega
    · rw [List.length_drop]
      omega
  · intro h
    unfold deleteOldCheckpoints
    rw [if_neg (by omega)]
  · intro h25
    have hlen : (log ++ [c]).length = 26 := by
      rw [List.length_append, h25]
      rfl
    unfold deleteOldCheckpoints
    rw [if_neg (by omega), hlen]

theorem acceptedLog_retention_witness :
    deleteOldCheckpoints (List.replicate 25 "a" ++ ["x"]) =
      (List.replicate 25 "a" ++ ["x"]).drop 6 ∧
    (deleteOldCheckpoints (List.replicate 25 "a" ++ ["x"])).length ≤ 20 :=
  ⟨(acceptedLog_retention (List.replicate 25 "a") "x").2.2 (by simp),
   (acceptedLog_retention (List.replicate 25 "a") "x").1⟩

/-- Dropping all but the last two of a cons is dropping all but the last
    two of the tail, once the tail has at least two elements. -/
theorem lastTwo_cons {α : Type} (x : α) (zs : List α) (h : 2 ≤ zs.length) :
    (x :: zs).drop ((x :: zs).length - 2) = zs.drop (zs.length - 2) := by
  have hlen : (x :: zs).length - 2 = (zs.length - 2) + 1 := by
    rw [List.length_cons]
    omega
  rw [hlen, List.drop_succ_cons]

theorem lastTwo_append {α : Type} (xs ys : List α) (h : 2 ≤ ys.length) :
    (xs ++ ys).drop ((xs ++ ys).length - 2) = ys.drop (ys.length - 2) := by
  induction xs with
  | nil => simp
  | cons x xs ih =>
    have h2 : 2 ≤ (xs ++ ys).length := by
      rw [List.length_append]
      omega
    rw [List.cons_append, lastTwo_cons x (xs ++ ys) h2, ih]

/-- The scanner loop keeps exactly the last two lines (all of them when
    fewer than two exist). -/
theorem scanLoop_eq (ls : List String) : ∀ acc : List String, acc.length ≤ 2 →
    scanLoop acc ls = (acc ++ ls).drop ((acc ++ ls).length - 2) := by
  induction ls with
  | nil =>
    intro acc hacc
    have h0 : (acc ++ ([] : List String)).length - 2 = 0 := by
      rw [List.append_nil]
      omega
    rw [h0, List.drop_zero, List.append_nil]
    rfl
  | cons l ls ih =>
    intro acc hacc
    rw [scanLoop]
    by_cases hlen : 2 < (acc ++ [l]).length
    · rw [if_pos hlen]
      have hacc2 : (acc ++ [l]).length = 3 := by
        rw [List.length_append]
        rw [List.length_append] at hlen
        simp only [List.length_singleton] at hlen ⊢
        omega
      have hdropped : ((acc ++ [l]).drop ((acc ++ [l]).length - 2)).length = 2 := by
        rw [List.length_drop]
        omega
      rw [ih _ (by rw [List.length_drop]; omega)]
      have hsplit : (acc ++ [l]) ++ ls =
          (acc ++ [l]).take ((acc ++ [l]).length - 2) ++
            ((acc ++ [l]).drop ((acc ++ [l]).length - 2) ++ ls) := by
        rw [← List.append_assoc, List.take_append_drop]
      have key : ((acc ++ [l]) ++ ls).drop (((acc ++ [l]) ++ ls).length - 2) =
          ((acc ++ [l]).drop ((acc ++ [l]).length - 2) ++ ls).drop
            (((acc ++ [l]).drop ((acc ++ [l]).length - 2) ++ ls).length - 2) := by
        conv_lhs => rw [hsplit]
        exact lastTwo_append _ _ (by rw [List.length_append, hdropped]; omega)
      rw [← key, List.append_assoc, List.singleton_append]
    · rw [if_neg hlen]
      rw [ih _ (by rw [List.length_append] at hlen ⊢; simp only [List.length_singleton] at hlen ⊢; omega)]
      rw [List.append_assoc, List.singleton_append]

/-- C7: readLatestCheckpoints returns exactly the last min(n, 2) lines of
    an n-line file in file order, and returns an error exactly when the
    open fails or the scanner reports an error. -/
theorem readLatestCheckpoints_spec :
    (∀ lines : List String,
      readLatestCheckpoints (.scanned lines false) = .ok (lines.drop (lines.length - 2))) ∧
    (∀ lines : List String, (lines.drop (lines.length - 2)).length = min lines.length 2) ∧
    readLatestCheckpoints .openError = .error () ∧
    (∀ lines : List String, readLatestCheckpoints (.scanned lines true) = .error ()) := by
  refine ⟨?_, ?_, rfl, fun lines => rfl⟩
  · intro lines
    have h := scanLoop_eq lines [] (by simp)
    simp only [List.nil_append] at h
    simp [readLatestCheckpoints, h]
  · intro lines
    rw [List.length_drop]
    omega

/-- C5: the same-size equality guard is tested right after maxTreeSize was
    assigned this checkpoint's own tree size, so it always holds there;
    the selection step, and with it the whole cycle evaluation, is
    extensionally unchanged when the guard is deleted. -/
theorem selection_guard_redundant :
    (∀ (counts : Int → Nat) (i : Nat) (st : SelState) (chpt : String),
      selStep counts i st chpt = selStepNoGuard counts i st chpt) ∧
    (∀ chptss : List (List String), evalCycle chptss = evalCycleNoGuard chptss) := by
  have hstep : ∀ (counts : Int → Nat) (i : Nat) (st : SelState) (chpt : String),
      selStep counts i st chpt = selStepNoGuard counts i st chpt := by
    intro counts i st chpt
    unfold selStep selStepNoGuard
    cases hts : treeSizeOf chpt with
    | panic => rfl
    | fatal => rfl
    | ok ts =>
      simp only []
      by_cases hg : i ≤ counts ts ∧ st.maxTreeSize ≤ ts
      · simp only [if_pos hg]
        cases ht : timestampOf chpt with
        | panic => rfl
        | fatal => rfl
        | ok o =>
          cases o with
          | none => rfl
          | some t => simp
      · simp only [if_neg hg]
  refine ⟨hstep, fun chptss => ?_⟩
  have hfun : ∀ (counts : Int → Nat) (i : Nat),
      runSel counts i chptss = runSelNoGuard counts i chptss := by
    intro counts i
    unfold runSel runSelNoGuard
    have h : selStep counts i = selStepNoGuard counts i := by
      funext st chpt
      exact hstep counts i st chpt
    rw [h]
  unfold evalCycle evalCycleNoGuard runQuorum runQuorumNoGuard
  cases runTally chptss with
  | panic => rfl
  | fatal => rfl
  | ok counts => exact hfun counts _

/-- Splitting a fold with early exit at an append point. -/
theorem foldCO_append {σ α : Type} (f : σ → α → CycleOutcome σ) (l1 l2 : List α) :
    ∀ s : σ, foldCO f s (l1 ++ l2) =
      match foldCO f s l1 with
      | .panic => .panic
      | .fatal => .fatal
      | .ok s' => foldCO f s' l2 := by
  induction l1 with
  | nil => intro s; rfl
  | cons a l1 ih =>
    intro s
    rw [List.cons_append]
    simp only [foldCO]
    cases h : f s a with
    | panic => rfl
    | fatal => rfl
    | ok s' => exact ih s'

/-- The nested per-monitor, per-checkpoint fold equals the fold over the
    flattened checkpoint list. -/
theorem foldCO_flatten {σ α : Type} (f : σ → α → CycleOutcome σ) (ll : List (List α)) :
    ∀ s : σ, foldCO (fun s' l => foldCO f s' l) s ll = foldCO f s ll.flatten := by
  induction ll with
  | nil => intro s; rfl
  | cons l ll ih =>
    intro s
    rw [List.flatten_cons, foldCO_append f l ll.flatten]
    simp only [foldCO]
    cases h : foldCO f s l with
    | panic => rfl
    | fatal => rfl
    | ok s' => exact ih s'

theorem runTally_flatten (chptss : List (List String)) :
    runTally chptss = foldCO tallyChpt (fun _ => 0) chptss.flatten := by
  unfold runTally
  rw [foldCO_flatten]

theorem sizeParses_ok {c : String} (h : sizeParses c = true) :
    ∃ n, treeSizeOf c = .ok n := by
  cases hc : treeSizeOf c with
  | panic => simp [sizeParses, hc] at h
  | fatal => simp [sizeParses, hc] at h
  | ok n => exact ⟨n, rfl⟩

/-- A run of the tally loop over lines whose tree sizes all parse: it
    succeeds and adds, per value, the number of lines carrying that
    value. -/
theorem tally_fold_ok (l : List String) : ∀ c0 : Int → Nat,
    (∀ c ∈ l, sizeParses c = true) →
    ∃ cnt, foldCO tallyChpt c0 l = .ok cnt ∧
      ∀ v : Int, cnt v = c0 v + l.countP (fun c => decide (treeSizeOf c = .ok v)) := by
  induction l with
  | nil =>
    intro c0 _
    exact ⟨c0, rfl, fun v => by simp⟩
  | cons c l ih =>
    intro c0 h
    obtain ⟨n, hn⟩ := sizeParses_ok (h c (List.mem_cons_self c l))
    have hstep : foldCO tallyChpt c0 (c :: l) =
        foldCO tallyChpt (fun m => if m = n then c0 m + 1 else c0 m) l := by
      simp only [foldCO, tallyChpt, hn]
    obtain ⟨cnt, hfold, hcnt⟩ := ih _ (fun x hx => h x (List.mem_cons_of_mem c hx))
    refine ⟨cnt, by rw [hstep, hfold], fun v => ?_⟩
    rw [hcnt v, List.countP_cons]
    by_cases hv : v = n
    · subst hv
      simp only [if_pos rfl, hn]
      simp
      omega
    · simp only [if_neg hv, hn]
      have : (decide (CycleOutcome.ok n = CycleOutcome.ok v)) = false := by
        simp
        exact fun hnv => hv hnv.symm
      rw [this]
      simp

/-- C4: when every line's tree size parses, the tally succeeds and maps
    each observed tree size to the number of checkpoint lines across all
    monitors' histories reporting that size — counted per line, so a
    monitor with two same-size checkpoints contributes two. -/
theorem tally_counts_per_line (chptss : List (List String))
    (h : ∀ c ∈ chptss.flatten, sizeParses c = true) :
    ∃ counts, runTally chptss = .ok counts ∧
      ∀ v : Int, counts v =
        (chptss.flatten).countP (fun c => decide (treeSizeOf c = .ok v)) := by
  obtain ⟨cnt, hfold, hcnt⟩ := tally_fold_ok chptss.flatten (fun _ => 0) h
  refine ⟨cnt, ?_, fun v => ?_⟩
  · rw [runTally_flatten]
    exact hfold
  · rw [hcnt v]
    simp

theorem tally_counts_per_line_witness :
    ∃ counts, runTally c4ex = CycleOutcome.ok counts ∧ counts 5 = 2 := by
  obtain ⟨counts, h1, h2⟩ := tally_counts_per_line c4ex (by decide)
  refine ⟨counts, h1, ?_⟩
  rw [h2 5]
  decide

theorem sliceIndex_ne_fatal (l : List String) (i : Nat) : sliceIndex l i ≠ .fatal := by
  unfold sliceIndex
  split <;> simp

theorem timestampOf_ne_fatal (c : String) : timestampOf c ≠ .fatal := by
  unfold timestampOf
  cases h1 : sliceIndex (splitFields c) 3 with
  | panic => simp
  | fatal => exact absurd h1 (sliceIndex_ne_fatal _ _)
  | ok f =>
    cases h2 : sliceIndex ((splitColon f.data).map fun cs => (⟨cs⟩ : String)) 1 with
    | panic => simp [h2]
    | fatal => exact absurd h2 (sliceIndex_ne_fatal _ _)
    | ok t => simp [h2]

/-- A selection step on a checkpoint whose tree size parses and whose
    timestamp access cannot panic always succeeds. -/
theorem selStep_ok {counts : Int → Nat} {i : Nat} {c : String}
    (h1 : sizeParses c = true) (h2 : timestampOf c ≠ .panic) (st : SelState) :
    ∃ st', selStep counts i st c = .ok st' := by
  obtain ⟨n, hn⟩ := sizeParses_ok h1
  unfold selStep
  simp only [hn]
  by_cases hg : i ≤ counts n ∧ st.maxTreeSize ≤ n
  · simp only [if_pos hg]
    cases ht : timestampOf c with
    | panic => exact absurd ht h2
    | fatal => exact absurd ht (timestampOf_ne_fatal c)
    | ok o =>
      cases o with
      | none => exact ⟨_, rfl⟩
      | some t =>
        simp only []
        split
        · exact ⟨_, rfl⟩
        · exact ⟨_, rfl⟩
  · simp only [if_neg hg]
    exact ⟨st, rfl⟩

/-- A fold whose every step succeeds, succeeds. -/
theorem foldCO_ok {σ α : Type} (f : σ → α → CycleOutcome σ) (l : List α)
    (h : ∀ a ∈ l, ∀ s : σ, ∃ s', f s a = .ok s') :
    ∀ s : σ, ∃ s', foldCO f s l = .ok s' := by
  induction l with
  | nil => intro s; exact ⟨s, rfl⟩
  | cons a l ih =>
    intro s
    obtain ⟨s1, hs1⟩ := h a (List.mem_cons_self a l) s
    obtain ⟨s2, hs2⟩ := ih (fun x hx s' => h x (List.mem_cons_of_mem a hx) s') s1
    refine ⟨s2, ?_⟩
    simp only [foldCO, hs1]
    exact hs2

/-- The tally loop exits fatally when some line's tree size fails to
    parse and no earlier line panics. -/
theorem tally_fold_fatal (l : List String) :
    (∀ c ∈ l, treeSizeOf c ≠ .panic) → (∃ c ∈ l, treeSizeOf c = .fatal) →
    ∀ c0 : Int → Nat, foldCO tallyChpt c0 l = .fatal := by
  induction l with
  | nil =>
    intro _ hf _
    obtain ⟨c, hc, _⟩ := hf
    cases hc
  | cons c l ih =>
    intro hnp hf c0
    cases hc : treeSizeOf c with
    | panic => exact absurd hc (hnp c (List.mem_cons_self c l))
    | fatal => simp only [foldCO, tallyChpt, hc]
    | ok n =>
      have hstep : foldCO tallyChpt c0 (c :: l) =
          foldCO tallyChpt (fun m => if m = n then c0 m + 1 else c0 m) l := by
        simp only [foldCO, tallyChpt, hc]
      rw [hstep]
      obtain ⟨x, hx, hfx⟩ := hf
      rcases List.mem_cons.mp hx with rfl | hx'
      · rw [hc] at hfx
        cases hfx
      · exact ih (fun y hy => hnp y (List.mem_cons_of_mem c hy)) ⟨x, hx', hfx⟩ _

/-- C6: a checkpoint that passes the quorum-and-running-max guard but
    whose timestamp fails to parse leaves the step successful with the
    max updated and the candidate unchanged; a cycle whose lines all
    parse their tree sizes (timestamps possibly malformed) completes
    without a fatal exit; and a tree-size parse failure anywhere (absent
    an earlier panic) makes the whole cycle fatal. -/
theorem timestamp_skip_and_size_fatal :
    (∀ (counts : Int → Nat) (i : Nat) (st : SelState) (chpt : String) (ts : Int),
      treeSizeOf chpt = .ok ts → i ≤ counts ts → st.maxTreeSize ≤ ts →
      timestampOf chpt = .ok none →
      selStep counts i st chpt = .ok { st with maxTreeSize := ts }) ∧
    (∀ chptss : List (List String),
      (∀ c ∈ chptss.flatten, sizeParses c = true ∧ timestampOf c ≠ .panic) →
      ∃ st, evalCycle chptss = .ok st) ∧
    (∀ chptss : List (List String),
      (∀ c ∈ chptss.flatten, treeSizeOf c ≠ .panic) →
      (∃ c ∈ chptss.flatten, treeSizeOf c = .fatal) →
      evalCycle chptss = .fatal) := by
  refine ⟨?_, ?_, ?_⟩
  · intro counts i st chpt ts hts hcnt hmax hskip
    unfold selStep
    simp only [hts, if_pos (And.intro hcnt hmax), hskip]
  · intro chptss h
    obtain ⟨cnt, hfold, _⟩ :=
      tally_fold_ok chptss.flatten (fun _ => 0) (fun c hc => (h c hc).1)
    have htally : runTally chptss = .ok cnt := by
      rw [runTally_flatten]
      exact hfold
    have hsel : ∃ st, runSel cnt (quorumThreshold chptss.length) chptss = .ok st := by
      unfold runSel
      rw [foldCO_flatten]
      exact foldCO_ok _ _ (fun c hc st => selStep_ok (h c hc).1 (h c hc).2 st) initSelState
    obtain ⟨st, hst⟩ := hsel
    refine ⟨st, ?_⟩
    unfold evalCycle runQuorum
    simp only [htally]
    exact hst
  · intro chptss hnp hf
    have htally : runTally chptss = .fatal := by
      rw [runTally_flatten]
      exact tally_fold_fatal chptss.flatten hnp hf (fun _ => 0)
    unfold evalCycle runQuorum
    simp only [htally]

theorem timestamp_skip_and_size_fatal_witness :
    selStep c6counts 1 initSelState c6chpt = .ok ⟨5, 0, ""⟩ ∧
    evalCycle [["O\\nbad\\nH\\ntimestamp: 1"]] = .fatal := by
  constructor
  · exact timestamp_skip_and_size_fatal.1 c6counts 1 initSelState c6chpt 5
      (by decide) (by decide) (by decide) (by decide)
  · exact timestamp_skip_and_size_fatal.2.2 [["O\\nbad\\nH\\ntimestamp: 1"]]
      (by decide) ⟨"O\\nbad\\nH\\ntimestamp: 1", by decide, by decide⟩

/-- On c1ex the sizes 5 and 7 each meet the threshold 2, yet the cycle
    appends the size-5 checkpoint: an earlier smaller-size candidate with
    a newer timestamp survives, because largestTimestamp is shared across
    tree sizes. The running max still ends at 7. -/
theorem accepted_checkpoint_not_largest_size :
    evalCycle c1ex = .ok ⟨7, 101, "O\\n5\\nH\\ntimestamp: 101"⟩ ∧
    treeSizeOf "O\\n5\\nH\\ntimestamp: 101" = .ok 5 ∧
    quorumThreshold c1ex.length = 2 ∧
    (∃ counts, runTally c1ex = .ok counts ∧ 2 ≤ counts 5 ∧ 2 ≤ counts 7) := by
  refine ⟨?_, by decide, ?_, ?_⟩
  · rw [evalCycle_threshold]
    decide
  · rw [quorumThreshold_eq]
    decide
  · exact ⟨_, rfl, by decide, by decide⟩

/-- C8: field accesses of the quorum evaluator are partial: a line with no
    backslash-n separator, a line with fewer than four fields, and a line
    whose fourth field has no colon each drive a cycle to an out-of-range
    index (panic), an exit distinct from the fatal and skip paths. -/
theorem quorum_field_access_panics :
    evalCycle [["no-separator-here"]] = .panic ∧
    evalCycle [["O\\n5\\nH"]] = .panic ∧
    evalCycle [["O\\n5\\nH\\nnocolonfield"]] = .panic := by
  refine ⟨?_, ?_, ?_⟩ <;> (rw [evalCycle_threshold]; decide)

/-- Unfolding one successful cycle. -/
theorem runCycle_unfold (env : CycleEnv) (ms : List String)
    (hg : env.globResult = .ok ms) (chptss : List (List String))
    (hr : readAllMonitors env.fileOf ms = .ok chptss) (st : SelState)
    (hq : runQuorum (quorumThreshold ms.length) chptss = .ok st) :
    runCycle env = .ok (deleteOldCheckpoints (env.acceptedLog ++ [st.latest_chpt])) := by
  unfold runCycle
  simp only [hg, hr, hq]

/-- C9 counterexample: the cycle's output is identical whether the
    monitor-list file parses or cannot even be read, and with an empty
    glob result it appends the empty selection even though the list names
    a readable monitor log — yet when the same file is discovered by the
    glob, its checkpoint is accepted. The cycle never consults the
    monitor-list file. -/
theorem cycle_ignores_monitor_list :
    runCycle c9env = .ok [""] ∧
    runCycle c9envAlt = .ok [""] ∧
    initMonitors c9env.monitorListFile = .ok ["logInfo9.txt"] ∧
    runCycle c9envGlobbed = .ok [c9chpt] := by
  refine ⟨by decide, by decide, rfl, ?_⟩
  have hq : runQuorum (quorumThreshold 1) [[c9chpt]] = .ok ⟨9, 9, c9chpt⟩ := by
    rw [quorumThreshold_eq]
    decide
  exact runCycle_unfold c9envGlobbed ["logInfo9.txt"] rfl [[c9chpt]] rfl ⟨9, 9, c9chpt⟩ hq

/-- C9 (amended): initMonitors yields, in order, the logfile value of
    each entry of the monitors array, and fails exactly when the file
    cannot be read or its contents do not unmarshal against the schema. -/
theorem initMonitors_spec :
    (∀ list : monitorList,
      initMonitors (.parsed list) = .ok (list.Monitors.map MonitorEntry.Logfile)) ∧
    initMonitors .readError = .error () ∧
    initMonitors .unmarshalError = .error () :=
  ⟨fun _ => rfl, rfl, rfl⟩

/-- C10: main registers the interval flag with a one-minute default but
    never calls flag.Parse, so the sleep is one minute regardless of any
    supplied value; had flag.Parse run, the supplied value would have
    replaced the default. -/
theorem interval_flag_never_parsed :
    (∀ supplied : Option Nat, mainSleepInterval supplied = oneMinuteNs) ∧
    mainSleepInterval (some 5000000000) = 60 * 1000000000 ∧
    flagParse (some 5000000000) (flagDuration oneMinuteNs) = ⟨5000000000⟩ :=
  ⟨fun _ => rfl, rfl, rfl⟩
